import Mathlib

/-!
Verification development for the compile-context VSCode extension
(aldo-g/compile-context-ext). The selection-aware tree materializer,
selection toggler, exclusion filter and context serializer are embedded
shallowly: the Selection Set (`Set<string>` of checked absolute paths) is a
`Finset String`, directory listings are explicit lists, the filesystem seen
by the recursive descendant walks is an inductive tree, file reads are an
explicit `String → Except String String` oracle, and the host string
primitives used by the source (`String.prototype.startsWith`, `split`,
`localeCompare`, `path.basename`) are modelled as executable char-list
functions so every concrete evaluation can go through `decide`.
-/

/-! ## String primitives modelled from the host environment -/

/-- Model of `b.startsWith(a)` on char lists: `charsPrefix p s` is true when
`p` is a prefix of `s` (JS `String.prototype.startsWith`). -/
def charsPrefix : List Char → List Char → Bool
  | [], _ => true
  | _ :: _, [] => false
  | a :: as, b :: bs => a == b && charsPrefix as bs

/-- Model of the JS `s.startsWith(p)` used by the exclusion checks. -/
def strStartsWith (s p : String) : Bool := charsPrefix p.data s.data

/-- Model of JS `String.prototype.split(sep)` for a one-character separator,
on char lists: `splitOnChar '/' "a/b".data = [['a'], ['b']]`. -/
def splitOnChar (sep : Char) : List Char → List (List Char)
  | [] => [[]]
  | c :: cs =>
    let r := splitOnChar sep cs
    if c == sep then [] :: r
    else
      match r with
      | s :: ss => (c :: s) :: ss
      | [] => [[c]]

/-- Model of `relativePath.split('/')` (paths are kept forward-slash
normalized, as the source normalizes them with `.replace(/\\/g, '/')`). -/
def splitSlash (s : String) : List String :=
  (splitOnChar '/' s.data).map (fun cs => String.mk cs)

/-- Model of `path.basename` on a forward-slash relative path: its last
segment. -/
def baseName (rel : String) : String := (splitSlash rel).getLastD rel

/-! ## The Selection Set and derived directory state

The extension keeps one `Set<string>` of checked absolute file paths
(`checkedFiles`); directories never store a checked state of their own. -/

/-- Model of `checkedFiles.has(p)` on the Selection Set. -/
def selHas (sel : Finset String) (p : String) : Bool := decide (p ∈ sel)

/-- Derived boolean checked state of a directory in
`src/treeDataProvider.ts` (`getFileNodes`, the named provider):
`allSelected = allChildFilePaths.length > 0 && allChildFilePaths.every(has)`.
`childFiles` is the list returned by `getAllChildFilesSync` for the
directory. -/
def mainDirChecked (childFiles : List String) (sel : Finset String) : Bool :=
  !childFiles.isEmpty && childFiles.all (fun f => selHas sel f)

/-- Derived boolean checked state of a directory in the `part_000` rewrite of
the provider (`getFileNodes`, lines 117-125): `allSel = child.every(has)` —
with no `child.length > 0` guard. -/
def part000DirChecked (childFiles : List String) (sel : Finset String) : Bool :=
  childFiles.all (fun f => selHas sel f)

/-- Tri-state symbol computation for a directory node from
`getSelectionSymbol` in `src/treeDataProvider.ts` (lines 194-210):
`●` when all descendant files are selected and there is at least one,
`◑` when some are, `○` otherwise. -/
def getSelectionSymbolDir (childFiles : List String) (sel : Finset String) : String :=
  let allSelected := !childFiles.isEmpty && childFiles.all (fun f => selHas sel f)
  let someSelected := childFiles.any (fun f => selHas sel f)
  if allSelected then "●" else if someSelected then "◑" else "○"

/-! ## The selection toggler -/

/-- Model of the File branch of `toggleCheckbox`: the rendered node carries
`element.checked`, and the command deletes the path when that flag is set,
adds it otherwise. -/
def toggleFile (sel : Finset String) (p : String) (checked : Bool) : Finset String :=
  if checked then sel.erase p else insert p sel

/-- A File node as the tree provider renders it has
`checked = checkedFiles.has(fullPath)`; toggling that freshly rendered node
is therefore `toggleFile` at `selHas sel p`. -/
def toggleFileRendered (sel : Finset String) (p : String) : Finset String :=
  toggleFile sel p (selHas sel p)

/-- Aggregate test of the Directory branch of `compileContext.toggleCheckbox`
(`part_003`, lines 136-137):
`isChecked = allChildFilePaths.length > 0 && allChildFilePaths.every(has)`. -/
def dirAllSelected (sel : Finset String) (paths : List String) : Bool :=
  !paths.isEmpty && paths.all (fun f => selHas sel f)

/-- Directory branch of `compileContext.toggleCheckbox` (`part_003`, lines
135-151): when `isChecked`, every enumerated child file path is deleted from
the Selection Set; otherwise every one is added. -/
def toggleDir (sel : Finset String) (paths : List String) : Finset String :=
  if dirAllSelected sel paths then paths.foldl (fun s x => s.erase x) sel
  else paths.foldl (fun s x => insert x s) sel

/-- Directory branch of the superseded `contextGenerator.toggleCheckbox` in
`src/extension.ts` (lines 21-38): there
`isChecked = checkedFiles.has(element.uri.fsPath)` — membership of the
directory's own path, not an aggregate over its descendant files. -/
def toggleDirOld (sel : Finset String) (dirPath : String) (paths : List String) : Finset String :=
  if selHas sel dirPath then paths.foldl (fun s x => s.erase x) sel
  else paths.foldl (fun s x => insert x s) sel

/-! ## The filesystem model and the recursive descendant walk

`getAllChildFiles` / `getAllChildFilesSync` read a directory with
`readdir`; a failed read is caught, reported with `showErrorMessage`, and
the loop goes on with whatever was collected so far. `FSEntry.dir`'s
`readable` flag says whether `readdir` succeeds on that directory. -/

/-- Filesystem node: a file, or a directory whose `readable` flag models
whether `readdir` succeeds on it. -/
inductive FSEntry where
  | file (name : String)
  | dir (name : String) (readable : Bool) (children : List FSEntry)

mutual

/-- Model of `getAllChildFiles` / `getAllChildFilesSync` applied to the entry
`e` sitting in directory `p`: a file contributes its joined path, a readable
directory contributes its children's collection, and an unreadable directory
contributes nothing (the `catch` swallows the error after reporting it). -/
def collectE (p : String) : FSEntry → List String
  | .file n => [p ++ "/" ++ n]
  | .dir n r cs => if r then collectL (p ++ "/" ++ n) cs else []

/-- Collection over a directory's entry list, in order. -/
def collectL (p : String) : List FSEntry → List String
  | [] => []
  | e :: es => collectE p e ++ collectL p es

end

mutual

/-- Every file path under `e`, ignoring readability: the true descendant-file
set of the claim. -/
def allFilesE (p : String) : FSEntry → List String
  | .file n => [p ++ "/" ++ n]
  | .dir n _ cs => allFilesL (p ++ "/" ++ n) cs

/-- True descendant files of a directory's entry list. -/
def allFilesL (p : String) : List FSEntry → List String
  | [] => []
  | e :: es => allFilesE p e ++ allFilesL p es

end

mutual

/-- Whether the walk over `e` reports an enumeration failure
(`showErrorMessage` in the `catch` of `getAllChildFiles`): true exactly when
an unreadable directory is reached. -/
def enumErrE : FSEntry → Bool
  | .file _ => false
  | .dir _ r cs => !r || enumErrL cs

/-- Enumeration failures over a directory's entry list. -/
def enumErrL : List FSEntry → Bool
  | [] => false
  | e :: es => enumErrE e || enumErrL es

end

/-- Toggling a directory entry `e` (sitting in directory `p`) against the
filesystem: enumerate with `collectE`, then apply the Directory branch of
`compileContext.toggleCheckbox`. -/
def toggleDirFS (sel : Finset String) (p : String) (e : FSEntry) : Finset String :=
  toggleDir sel (collectE p e)

/-! ## The exclusion filter -/

/-- Model of the `excludePaths` test in `contextGenerator.generateContext`
(`src/extension.ts` line 85) and `compileContext.compileContext`
(`part_003` line 200):
`excludePaths.some(excludePath => relativePath.startsWith(excludePath))`. -/
def isExcludedByPaths (excludePaths : List String) (rel : String) : Bool :=
  excludePaths.any (fun p => strStartsWith rel p)

/-! ## Theorems -/

/-! ## The flat serializer of src/generateContext.ts and the compile command

`generateContext` takes the already-filtered file list; file contents come
from the host read primitive, modelled as `read : String → Except String
String` keyed by the file's forward-slash relative path (the error value is
the failure reason the source interpolates into the output). -/

/-- One file's contribution to the Files section (`src/generateContext.ts`
lines 25-39): a file named exactly `__init__.py` gets only its delimiter
line and is never read; otherwise a successful read emits delimiter, content
and a newline, and a failed read emits the delimiter followed by the inline
error message. -/
def fileEntry (read : String → Except String String) (rel : String) : String :=
  if baseName rel == "__init__.py" then
    "\n--- Start of " ++ rel ++ " ---\n"
  else
    match read rel with
    | .ok content => "\n--- Start of " ++ rel ++ " ---\n" ++ content ++ "\n"
    | .error e => "\n--- Start of " ++ rel ++ " ---\nError reading file: " ++ e ++ "\n"

/-- The Files section: `filesContent` starts as `"\nFiles:\n"` and the
source appends each selected file's entry in the order of the supplied
list. -/
def filesSection (read : String → Except String String) (files : List String) : String :=
  files.foldl (fun acc f => acc ++ fileEntry read f) "\nFiles:\n"

/-- Concatenation of the per-file entries in list order (the closed form the
accumulator of `filesSection` builds). -/
def joinEntries (read : String → Except String String) : List String → String
  | [] => ""
  | f :: fs => fileEntry read f ++ joinEntries read fs

/-- The flat File Tree section of `src/generateContext.ts` (lines 15-22):
one `├── relativePath` line per selected file. -/
def fileTreeFlat (files : List String) : String :=
  files.foldl (fun acc f => acc ++ ("├── " ++ f ++ "\n")) "File Tree:\n"

/-- The document `generateContext` writes: `${fileTree}\n${filesContent}`. -/
def generateContextDoc (read : String → Except String String)
    (files : List String) : String :=
  fileTreeFlat files ++ "\n" ++ filesSection read files

/-- Configuration snapshot the compile command reads. -/
structure ExclusionConfig where
  excludeFiles : List String
  excludePaths : List String
  excludeHidden : Bool

/-- Model of `isHidden(relativePath)`: some forward-slash segment begins with
a dot. -/
def isHidden (rel : String) : Bool :=
  (splitSlash rel).any (fun part => strStartsWith part ".")

/-- The compile-time filter predicate of `contextGenerator.generateContext` /
`compileContext.compileContext`: keep a file unless its base name is in
`excludeFiles`, its relative path starts with an `excludePaths` entry, or it
is hidden while `excludeHidden` is set. -/
def keepFile (cfg : ExclusionConfig) (rel : String) : Bool :=
  !(cfg.excludeFiles.contains (baseName rel)) &&
    (!(isExcludedByPaths cfg.excludePaths rel) &&
      !(cfg.excludeHidden && isHidden rel))

/-- Observable outcome of the compile command: one of the two user-visible
warnings, or a written document. -/
inductive CompileOutcome where
  | noSelection
  | allExcluded
  | written (doc : String)
deriving DecidableEq

/-- Whether an outcome wrote a document. -/
def CompileOutcome.isWritten : CompileOutcome → Bool
  | .written _ => true
  | _ => false

/-- The compile command (`src/extension.ts` lines 58-107): warn and return
when nothing is selected; filter; warn and return when nothing survives the
filter; otherwise hand the filtered list to `generateContext`, which writes
the document. -/
def compileCommand (cfg : ExclusionConfig) (read : String → Except String String)
    (selected : List String) : CompileOutcome :=
  if selected.isEmpty then .noSelection
  else
    let filtered := selected.filter (fun f => keepFile cfg f)
    if filtered.isEmpty then .allExcluded
    else .written (generateContextDoc read filtered)

/-- Read oracle used by concrete witnesses: `b.txt` fails with `EACCES`,
every other path reads successfully. -/
def read0 : String → Except String String := fun s =>
  if s == "b.txt" then Except.error "EACCES" else Except.ok ("text of " ++ s)

/-! ## A model of default-locale localeCompare and the hierarchical serializer

`a.localeCompare(b)` under the default locale (ICU root collation), restricted
to the ASCII names a project tree carries, compares primarily
case-insensitively (lowercased strings, char order) and breaks
case-insensitive ties at the tertiary case level with lowercase before
uppercase. `lcLe a b` is the "a sorts no later than b" relation of that
comparator. -/

/-- Strict lexicographic order on char lists by code point. -/
def charsLt : List Char → List Char → Bool
  | [], [] => false
  | [], _ :: _ => true
  | _ :: _, [] => false
  | a :: as, b :: bs => if a = b then charsLt as bs else decide (a < b)

/-- Primary collation key: the lowercased chars (models `toLowerCase` /
the collator's case-insensitive primary level on ASCII). -/
def lowerChars (s : String) : List Char := s.data.map Char.toLower

/-- Tertiary collation key: the case pattern, with lowercase (`A`) sorting
before uppercase (`B`). -/
def caseChars (s : String) : List Char :=
  s.data.map (fun c => if c.isUpper then 'B' else 'A')

/-- Model of `a.localeCompare(b) <= 0` under the default locale for ASCII
names. -/
def lcLe (a b : String) : Bool :=
  if lowerChars a = lowerChars b then !charsLt (caseChars b) (caseChars a)
  else charsLt (lowerChars a) (lowerChars b)

/-- The comparator as a relation, for `List.insertionSort` (JS
`Array.prototype.sort` is a stable comparison sort, and `lcLe` orders any
two distinct names strictly, so insertion sort computes the same result). -/
def lcR : String → String → Prop := fun a b => lcLe a b = true

instance : DecidableRel lcR := fun a b => inferInstanceAs (Decidable (lcLe a b = true))

/-- Lowercased string, for the serializer's comparator which lowers both
names before calling `localeCompare`. -/
def lowerStr (s : String) : String := String.mk (lowerChars s)

/-- Ephemeral tree the serializer builds from the selected files' relative
paths (`compileContext.ts`): a name, keyed children in insertion order, and
an `isFile` flag. -/
inductive TreeNode where
  | node (name : String) (children : List TreeNode) (isFile : Bool)

/-- Name of a tree node. -/
def TreeNode.name : TreeNode → String
  | .node n _ _ => n

/-- Children of a tree node. -/
def TreeNode.children : TreeNode → List TreeNode
  | .node _ cs _ => cs

/-- File flag of a tree node. -/
def TreeNode.isFile : TreeNode → Bool
  | .node _ _ f => f

/-- Insertion of one path's segment chain into a children list, from the
tree-building loop of `compileContext.ts`: walk the segments, descending into
the matching child when the key exists (its `isFile` flag is left as first
set) and appending a fresh node (children empty, `isFile` iff it is the last
segment) when it does not. Keys in a JS `Map` are unique, so replacing every
matching child is the same as replacing the one. -/
def insertParts : List TreeNode → List String → List TreeNode
  | cs, [] => cs
  | cs, p :: rest =>
    if cs.any (fun c => c.name == p) then
      cs.map (fun c =>
        if c.name == p then TreeNode.node c.name (insertParts c.children rest) c.isFile
        else c)
    else
      cs ++ [TreeNode.node p (insertParts [] rest) rest.isEmpty]

/-- The root's children list built from the selected relative paths, in
order. -/
def buildChildren (rels : List String) : List TreeNode :=
  rels.foldl (fun cs rel => insertParts cs (splitSlash rel)) []

/-- Comparator of `serializeTree` in `compileContext.ts`: directories before
files, and within a kind the lowered names under `localeCompare`. -/
def treeNodeLe (a b : TreeNode) : Bool :=
  if a.isFile == b.isFile then lcLe (lowerStr a.name) (lowerStr b.name) else !a.isFile

/-- The serializer's comparator as a relation. -/
def treeNodeR : TreeNode → TreeNode → Prop := fun a b => treeNodeLe a b = true

instance : DecidableRel treeNodeR := fun a b => inferInstanceAs (Decidable (treeNodeLe a b = true))

mutual

/-- Recursive sorting of every children list. `serializeTree` sorts each
node's children as it reaches them; the comparator reads only `name` and
`isFile`, so sorting the whole tree first and then walking it unsorted emits
the same text. -/
def sortTree : TreeNode → TreeNode
  | .node n cs f => .node n (List.insertionSort treeNodeR (sortTreeList cs)) f

/-- Recursive sorting over a children list. -/
def sortTreeList : List TreeNode → List TreeNode
  | [] => []
  | c :: cs => sortTree c :: sortTreeList cs

end

mutual

/-- One node's lines in the connector-drawn walk of `serializeTree`
(`compileContext.ts`) over an already sorted tree: the node's own line is
`prefix ++ connector ++ name` with a `/` suffix for a directory, and a
directory's children follow under the extended child prefix. -/
def serNode (pre conn childPre : String) : TreeNode → String
  | .node n _ true => pre ++ conn ++ n ++ "\n"
  | .node n cs false => pre ++ conn ++ n ++ "/\n" ++ serList childPre cs

/-- The sibling walk of `serializeTree`: every sibling but the last gets
`├── ` and the child prefix `pre ++ "│   "`, the last sibling gets `└── `
and the child prefix `pre ++ "    "`. -/
def serList (pre : String) : List TreeNode → String
  | [] => ""
  | [c] => serNode pre "└── " (pre ++ "    ") c
  | c :: c2 :: rest => serNode pre "├── " (pre ++ "│   ") c ++ serList pre (c2 :: rest)

end

/-- One selected entry as `compileContext` sees it: its forward-slash
relative path, whether a stat says it is a directory (directories are
skipped in the Files section), and the outcome of reading it. -/
structure SelFile where
  rel : String
  isDir : Bool
  read : Except String String

/-- The Files section of `compileContext.ts`: entries in input order,
directories skipped, read failures inlined as an error message. -/
def compileFilesContent (selected : List SelFile) : String :=
  selected.foldl
    (fun acc f =>
      if f.isDir then acc
      else
        match f.read with
        | .ok c => acc ++ ("\n--- Start of " ++ f.rel ++ " ---\n" ++ c ++ "\n")
        | .error m =>
          acc ++ ("\n--- Start of " ++ f.rel ++ " ---\nError reading file: " ++ m ++ "\n"))
    "\nFiles:\n"

/-- The whole `compileContext` run (`compileContext.ts`): build the tree from
the selected relative paths, bail out with the "No files to serialize" error
when it is empty, otherwise produce the document
`${fileTree}\n${filesContent}` that is written to the output file. -/
def compileContextRun (selected : List SelFile) : Option String :=
  let rootChildren := buildChildren (selected.map (fun f => f.rel))
  if rootChildren.isEmpty then none
  else
    some (("File Tree:\n" ++
        serList "" ((sortTree (TreeNode.node "" rootChildren false)).children)) ++
      "\n" ++ compileFilesContent selected)

/-! ## The tree materializer's listing order (src/treeDataProvider.ts and part_001) -/

/-- A listed node as the providers surface it: the display label (directories
get a separator suffix), the raw entry name, the directory flag, and the
derived checked flag. -/
structure FileNode where
  label : String
  name : String
  isDir : Bool
  checked : Bool
deriving DecidableEq

/-- Entries surviving the hidden filter of `getFileNodes`
(`src/treeDataProvider.ts` lines 107-110). -/
def hiddenKept (hid : Bool) (entries : List String) : List String :=
  entries.filter (fun e => !(hid && strStartsWith e "."))

/-- Entries classified as directories by `statSync` (`stat` is the model of
`statSync`: `none` is a stat failure, `some b` says whether the entry is a
directory). -/
def dirNames (statF : String → Option Bool) (dirPath : String)
    (names : List String) : List String :=
  names.filter (fun e => statF (dirPath ++ "/" ++ e) == some true)

/-- Entries classified as files. -/
def fileNames (statF : String → Option Bool) (dirPath : String)
    (names : List String) : List String :=
  names.filter (fun e => statF (dirPath ++ "/" ++ e) == some false)

/-- The node-building second pass of `getFileNodes` (lines 131-161): stat the
entry again (a failure yields `null`, filtered out), then build the node with
its label, kind and derived checked state — `mainDirChecked` over
`getAllChildFilesSync` for a directory, Selection Set membership for a
file. -/
def mkFileNode (statF : String → Option Bool) (childFiles : String → List String)
    (sel : Finset String) (dirPath e : String) : Option FileNode :=
  match statF (dirPath ++ "/" ++ e) with
  | none => none
  | some isDir =>
    some { label := e ++ (if isDir then "/" else ""),
           name := e,
           isDir := isDir,
           checked := if isDir then mainDirChecked (childFiles (dirPath ++ "/" ++ e)) sel
                      else selHas sel (dirPath ++ "/" ++ e) }

/-- The named provider's `getFileNodes` (`src/treeDataProvider.ts` lines
92-162): drop hidden entries, classify by stat, sort each group with
`localeCompare` (`directories.sort`, `files.sort`), list directories before
files, and map the sorted names to nodes. -/
def getFileNodes (statF : String → Option Bool) (childFiles : String → List String)
    (sel : Finset String) (dirPath : String) (hid : Bool)
    (entries : List String) : List FileNode :=
  (List.insertionSort lcR (dirNames statF dirPath (hiddenKept hid entries)) ++
      List.insertionSort lcR (fileNames statF dirPath (hiddenKept hid entries))).filterMap
    (fun e => mkFileNode statF childFiles sel dirPath e)

/-- The superseded provider's `getFileNodes` (`part_001` lines 73-113): map
the raw `readdirSync` listing directly — stat failures and hidden entries
dropped inside the map — with no sorting pass at all. -/
def part001GetFileNodes (statF : String → Option Bool) (sel : Finset String)
    (dirPath : String) (hid : Bool) (entries : List String) : List FileNode :=
  entries.filterMap (fun e =>
    match statF (dirPath ++ "/" ++ e) with
    | none => none
    | some isDir =>
      if hid && strStartsWith e "." then none
      else some { label := e ++ (if isDir then "/" else ""), name := e, isDir := isDir,
                  checked := selHas sel (dirPath ++ "/" ++ e) })

/-- Directory nodes of a listing, in order. -/
def dirEntries (out : List FileNode) : List FileNode :=
  out.filter (fun n => n.isDir)

/-- File nodes of a listing, in order. -/
def fileEntries (out : List FileNode) : List FileNode :=
  out.filter (fun n => !n.isDir)

/-- C1: at the failing input — a directory with zero descendant files — the
`part_000` rewrite's `getFileNodes` derives `checked = true` (every-quantifier
over an empty list), while the named provider's guarded computation and the
selection-symbol computation in the same file both derive Unchecked (`○`).
The claim (empty directory is Unchecked, never Checked) is the stated
invariant and matches every other occurrence of this computation; the missing
`length > 0` guard in `part_000`'s `getFileNodes` is the slip. -/
theorem c1_empty_directory_divergence :
    part000DirChecked [] {"x"} = true ∧
    mainDirChecked [] {"x"} = false ∧
    getSelectionSymbolDir [] {"x"} = "○" := by
  decide

theorem mem_foldl_erase (paths : List String) :
    ∀ (sel : Finset String) (q : String),
      q ∈ paths.foldl (fun s x => s.erase x) sel ↔ q ∈ sel ∧ q ∉ paths := by
  induction paths with
  | nil => intro sel q; simp
  | cons p ps ih =>
    intro sel q
    rw [List.foldl_cons, ih]
    simp only [Finset.mem_erase, List.mem_cons]
    tauto

theorem mem_foldl_insert (paths : List String) :
    ∀ (sel : Finset String) (q : String),
      q ∈ paths.foldl (fun s x => insert x s) sel ↔ q ∈ sel ∨ q ∈ paths := by
  induction paths with
  | nil => intro sel q; simp
  | cons p ps ih =>
    intro sel q
    rw [List.foldl_cons, ih]
    simp only [Finset.mem_insert, List.mem_cons]
    tauto

/-- C2 (amended): for the live `compileContext.toggleCheckbox` Directory
branch the claim holds as stated: when the enumerated descendant list is
non-empty and fully selected the toggle removes every descendant, and in
every other case (a Partial directory included) it adds every descendant.
The superseded `contextGenerator.toggleCheckbox` in `src/extension.ts`
instead keys on membership of the directory's own path and violates the
claim (see the counterexample). -/
theorem c2_directory_toggle (sel : Finset String) (paths : List String) (p : String)
    (hp : p ∈ paths) :
    (dirAllSelected sel paths = true → p ∉ toggleDir sel paths) ∧
    (dirAllSelected sel paths = false → p ∈ toggleDir sel paths) := by
  constructor
  · intro h
    rw [toggleDir, if_pos h, mem_foldl_erase]
    exact fun h2 => h2.2 hp
  · intro h
    rw [toggleDir, if_neg (by simp [h]), mem_foldl_insert]
    exact Or.inr hp

theorem c2_directory_toggle_witness :
    ("/r/d/f" ∈ (["/r/d/f"] : List String)) ∧
    dirAllSelected {"/r/d/f"} ["/r/d/f"] = true ∧
    "/r/d/f" ∉ toggleDir {"/r/d/f"} ["/r/d/f"] := by
  refine ⟨by decide, by decide, ?_⟩
  exact (c2_directory_toggle {"/r/d/f"} ["/r/d/f"] "/r/d/f" (by decide)).1 (by decide)

/-- C2 counterexample: a directory `/r/d` whose only descendant file `/r/d/f`
is selected is fully selected, so the claim says a toggle removes every
descendant; the `contextGenerator.toggleCheckbox` variant in
`src/extension.ts` (lines 21-38) tests `checkedFiles.has('/r/d')` instead,
finds the directory path absent, and re-adds the descendants — `/r/d/f`
stays selected. -/
theorem c2_counterexample_old_directory_toggle :
    dirAllSelected {"/r/d/f"} ["/r/d/f"] = true ∧
    "/r/d/f" ∈ toggleDirOld {"/r/d/f"} "/r/d" ["/r/d/f"] := by
  decide

/-- C5 (amended): the `excludePaths` test is a plain `startsWith` prefix
match on the forward-slash relative path: an entry `"build"` excludes
`"build"` and `"build/x"`, but it also excludes `"build2/x"` — the match is
not segment-aware. (A path that merely contains `build` elsewhere, such as
`"abuild"`, is still kept.) -/
theorem c5_exclude_paths_plain_prefix :
    isExcludedByPaths ["build"] "build" = true ∧
    isExcludedByPaths ["build"] "build/x" = true ∧
    isExcludedByPaths ["build"] "build2/x" = true ∧
    isExcludedByPaths ["build"] "abuild" = false := by
  decide

/-- C5 counterexample: the claim states the relative path `"build2/x"` is not
excluded by the entry `"build"`; the code's `relativePath.startsWith(...)`
test excludes it. -/
theorem c5_counterexample_build2 :
    isExcludedByPaths ["build"] "build2/x" = true := by
  decide

/-- C7: toggling a freshly rendered File node flips that path's membership in
the Selection Set (adds if absent, removes if present), and toggling twice —
the second toggle sees the re-rendered node — restores the original
membership for that path (strict involution). -/
theorem c7_file_toggle_involution (sel : Finset String) (p : String) :
    selHas (toggleFileRendered sel p) p = !selHas sel p ∧
    selHas (toggleFileRendered (toggleFileRendered sel p) p) p = selHas sel p := by
  by_cases h : p ∈ sel <;>
    simp [selHas, toggleFileRendered, toggleFile, h, Finset.mem_erase, Finset.mem_insert]

mutual

theorem collectE_eq_allFilesE : ∀ (p : String) (e : FSEntry), enumErrE e = false →
    collectE p e = allFilesE p e
  | _, .file _, _ => rfl
  | p, .dir n r cs, h => by
    simp only [enumErrE, Bool.or_eq_false_iff, Bool.not_eq_false'] at h
    simp [collectE, allFilesE, h.1, collectL_eq_allFilesL (p ++ "/" ++ n) cs h.2]

theorem collectL_eq_allFilesL : ∀ (p : String) (es : List FSEntry), enumErrL es = false →
    collectL p es = allFilesL p es
  | _, [], _ => rfl
  | p, e :: es, h => by
    simp only [enumErrL, Bool.or_eq_false_iff] at h
    simp [collectL, allFilesL, collectE_eq_allFilesE p e h.1,
      collectL_eq_allFilesL p es h.2]

end

/-- C6 (amended): when the toggled directory itself cannot be read, the
enumeration returns the empty list, the failure is reported, and the toggle
leaves the Selection Set unchanged. When no enumeration error occurs
anywhere in the walk, the enumerated list is exactly the true descendant-file
set and the toggle updates every descendant (removing all of them when the
directory was fully selected, adding all of them otherwise). A nested
enumeration failure, however, is only reported: the toggle still proceeds on
the partial list (see the counterexample). -/
theorem c6_toggle_enumeration_failure (sel : Finset String) (n p : String)
    (cs : List FSEntry) :
    (toggleDirFS sel p (.dir n false cs) = sel ∧
      enumErrE (.dir n false cs) = true) ∧
    (enumErrE (.dir n true cs) = false →
      collectE p (.dir n true cs) = allFilesE p (.dir n true cs) ∧
      ∀ q ∈ allFilesE p (.dir n true cs),
        (dirAllSelected sel (collectE p (.dir n true cs)) = true →
          q ∉ toggleDirFS sel p (.dir n true cs)) ∧
        (dirAllSelected sel (collectE p (.dir n true cs)) = false →
          q ∈ toggleDirFS sel p (.dir n true cs))) := by
  refine ⟨⟨?_, ?_⟩, fun h => ?_⟩
  · rfl
  · rfl
  · have hall : collectE p (.dir n true cs) = allFilesE p (.dir n true cs) :=
      collectE_eq_allFilesE p _ h
    refine ⟨hall, fun q hq => ⟨fun hsel => ?_, fun hsel => ?_⟩⟩
    · rw [toggleDirFS, toggleDir, if_pos hsel, mem_foldl_erase]
      rw [hall] at *
      exact fun h2 => h2.2 hq
    · rw [toggleDirFS, toggleDir, if_neg (by simp [hsel]), mem_foldl_insert]
      rw [hall]
      exact Or.inr hq

theorem c6_toggle_enumeration_failure_witness :
    (toggleDirFS {"/d/f"} "" (.dir "d" false [FSEntry.file "f"]) = {"/d/f"} ∧
      enumErrE (.dir "d" false [FSEntry.file "f"]) = true) ∧
    (collectE "" (FSEntry.dir "d" true [FSEntry.file "f"]) =
      allFilesE "" (FSEntry.dir "d" true [FSEntry.file "f"])) := by
  refine ⟨(c6_toggle_enumeration_failure {"/d/f"} "d" "" [FSEntry.file "f"]).1, ?_⟩
  exact ((c6_toggle_enumeration_failure {"/d/f"} "d" "" [FSEntry.file "f"]).2 (by decide)).1

/-- C6 counterexample: the directory `d` contains the file `f` and the
unreadable subdirectory `s` holding `g`; with both descendant files
selected, the enumeration reports an I/O failure yet the toggle still
mutates the Selection Set — it removes `/d/f` while `/d/s/g` stays — so the
update is neither "no descendant changed" nor "every descendant updated". -/
theorem c6_counterexample_partial_mutation :
    enumErrE (FSEntry.dir "d" true
      [FSEntry.file "f", FSEntry.dir "s" false [FSEntry.file "g"]]) = true ∧
    toggleDirFS {"/d/f", "/d/s/g"} ""
        (FSEntry.dir "d" true [FSEntry.file "f", FSEntry.dir "s" false [FSEntry.file "g"]]) ≠
      {"/d/f", "/d/s/g"} ∧
    "/d/s/g" ∈ toggleDirFS {"/d/f", "/d/s/g"} ""
      (FSEntry.dir "d" true [FSEntry.file "f", FSEntry.dir "s" false [FSEntry.file "g"]]) := by
  decide

theorem filesSection_eq (read : String → Except String String) (files : List String) :
    filesSection read files = "\nFiles:\n" ++ joinEntries read files := by
  suffices h : ∀ acc, files.foldl (fun acc f => acc ++ fileEntry read f) acc =
      acc ++ joinEntries read files by
    exact h _
  induction files with
  | nil => intro acc; simp [joinEntries]
  | cons f fs ih =>
    intro acc
    rw [List.foldl_cons, ih, joinEntries, ← String.append_assoc]

theorem joinEntries_append (read : String → Except String String) (l1 l2 : List String) :
    joinEntries read (l1 ++ l2) = joinEntries read l1 ++ joinEntries read l2 := by
  induction l1 with
  | nil => simp [joinEntries]
  | cons f fs ih => simp [joinEntries, ih, String.append_assoc]

/-- C8: the Files section concatenates per-file entries in exactly the
supplied list order; a file whose read fails contributes its delimiter
followed by the inline error message with the failure reason, and every file
after it (`l2`) is still serialized in place. -/
theorem c8_files_section_order_and_errors (read : String → Except String String)
    (l1 l2 : List String) (f msg : String)
    (hf : read f = Except.error msg)
    (hb : (baseName f == "__init__.py") = false) :
    filesSection read (l1 ++ f :: l2) =
      "\nFiles:\n" ++ (joinEntries read l1 ++
        (("\n--- Start of " ++ f ++ " ---\nError reading file: " ++ msg ++ "\n") ++
          joinEntries read l2)) := by
  have h1 : joinEntries read (f :: l2) = fileEntry read f ++ joinEntries read l2 := rfl
  have h2 : fileEntry read f =
      "\n--- Start of " ++ f ++ " ---\nError reading file: " ++ msg ++ "\n" := by
    simp [fileEntry, hb, hf]
  rw [filesSection_eq, joinEntries_append, h1, h2, String.append_assoc]

theorem c8_files_section_order_and_errors_witness :
    filesSection read0 (["a.txt"] ++ "b.txt" :: ["c.txt"]) =
      "\nFiles:\n" ++ (joinEntries read0 ["a.txt"] ++
        (("\n--- Start of " ++ "b.txt" ++ " ---\nError reading file: " ++ "EACCES" ++ "\n") ++
          joinEntries read0 ["c.txt"])) :=
  c8_files_section_order_and_errors read0 ["a.txt"] ["c.txt"] "b.txt" "EACCES" rfl (by decide)

/-- C9: when the selected list is empty, or every selected file is removed by
the exclusion filter, the compile command surfaces the corresponding warning
outcome and writes nothing. -/
theorem c9_empty_selection_aborts (cfg : ExclusionConfig)
    (read : String → Except String String) (selected : List String)
    (h : selected = [] ∨ selected.filter (fun f => keepFile cfg f) = []) :
    (compileCommand cfg read selected).isWritten = false ∧
    (selected = [] → compileCommand cfg read selected = CompileOutcome.noSelection) ∧
    (selected ≠ [] → selected.filter (fun f => keepFile cfg f) = [] →
      compileCommand cfg read selected = CompileOutcome.allExcluded) := by
  by_cases hsel : selected = []
  · subst hsel
    exact ⟨rfl, fun _ => rfl, fun hne _ => absurd rfl hne⟩
  · have hfil : selected.filter (fun f => keepFile cfg f) = [] := h.resolve_left hsel
    obtain ⟨a, as, rfl⟩ : ∃ a as, selected = a :: as := by
      cases selected with
      | nil => exact absurd rfl hsel
      | cons a as => exact ⟨a, as, rfl⟩
    refine ⟨?_, fun h0 => by simp at h0, fun _ _ => ?_⟩ <;>
      simp [compileCommand, hfil, CompileOutcome.isWritten]

theorem c9_empty_selection_aborts_witness :
    (compileCommand (ExclusionConfig.mk [] [] true) read0 []).isWritten = false ∧
    compileCommand (ExclusionConfig.mk [] [] true) read0 [] = CompileOutcome.noSelection :=
  ⟨(c9_empty_selection_aborts (ExclusionConfig.mk [] [] true) read0 [] (Or.inl rfl)).1,
    (c9_empty_selection_aborts (ExclusionConfig.mk [] [] true) read0 [] (Or.inl rfl)).2.1 rfl⟩

/-- C10: a selected file whose base name is exactly `__init__.py` contributes
only its delimiter line — the read oracle is never consulted, so the entry is
the same for every read function — while any other file with a successful
read contributes its delimiter and its content. -/
theorem c10_init_py_entry (read read2 : String → Except String String)
    (rel rel2 content : String)
    (h : baseName rel = "__init__.py")
    (h2 : (baseName rel2 == "__init__.py") = false)
    (h3 : read rel2 = Except.ok content) :
    fileEntry read rel = "\n--- Start of " ++ rel ++ " ---\n" ∧
    fileEntry read rel = fileEntry read2 rel ∧
    fileEntry read rel2 = "\n--- Start of " ++ rel2 ++ " ---\n" ++ content ++ "\n" := by
  refine ⟨?_, ?_, ?_⟩ <;> simp [fileEntry, h, h2, h3]

theorem c10_init_py_entry_witness :
    fileEntry read0 "pkg/__init__.py" = "\n--- Start of " ++ "pkg/__init__.py" ++ " ---\n" ∧
    fileEntry read0 "pkg/__init__.py" =
      fileEntry (fun _ => Except.error "x") "pkg/__init__.py" ∧
    fileEntry read0 "a.py" =
      "\n--- Start of " ++ "a.py" ++ " ---\n" ++ ("text of " ++ "a.py") ++ "\n" :=
  c10_init_py_entry read0 (fun _ => Except.error "x") "pkg/__init__.py" "a.py"
    ("text of " ++ "a.py") (by decide) (by decide) rfl

/-- C3 (amended): with `src/a.ts` (content `X`) and `README.md` (content `Y`)
both selected, in the order `[README.md, src/a.ts]`, the serializer produces
exactly the document below: the tree section sorts directories before files,
so `src/` precedes `README.md` (the claim's quoted document puts `README.md`
first, which would violate its own ordering rule), and the
`${fileTree}\n${filesContent}` join puts two blank lines between the tree and
`Files:`, not one; the Files section follows the input order. -/
theorem c3_round_trip_actual :
    compileContextRun
      [⟨"README.md", false, Except.ok "Y"⟩, ⟨"src/a.ts", false, Except.ok "X"⟩] =
    some "File Tree:\n├── src/\n│   └── a.ts\n└── README.md\n\n\nFiles:\n\n--- Start of README.md ---\nY\n\n--- Start of src/a.ts ---\nX\n" := by
  decide

/-- C3 counterexample: the serializer's output on the literal example is not
the claim's quoted document (which has `├── README.md` before `└── src/` and
a single blank line between the tree and `Files:`). -/
theorem c3_counterexample_quoted_document :
    compileContextRun
      [⟨"README.md", false, Except.ok "Y"⟩, ⟨"src/a.ts", false, Except.ok "X"⟩] ≠
    some "File Tree:\n├── README.md\n└── src/\n    └── a.ts\n\nFiles:\n\n--- Start of README.md ---\nY\n\n--- Start of src/a.ts ---\nX\n" := by
  decide

theorem charsLt_irrefl : ∀ cs : List Char, charsLt cs cs = false
  | [] => rfl
  | c :: cs => by simp [charsLt, charsLt_irrefl cs]

theorem charsLt_trans : ∀ as bs cs : List Char,
    charsLt as bs = true → charsLt bs cs = true → charsLt as cs = true
  | [], [], _, h, _ => by simp [charsLt] at h
  | [], _ :: _, [], _, h2 => by simp [charsLt] at h2
  | [], _ :: _, _ :: _, _, _ => by simp [charsLt]
  | _ :: _, [], _, h, _ => by simp [charsLt] at h
  | _ :: _, _ :: _, [], _, h2 => by simp [charsLt] at h2
  | a :: as, b :: bs, c :: cs, h, h2 => by
    simp only [charsLt] at h h2 ⊢
    by_cases hab : a = b
    · subst hab
      rw [if_pos rfl] at h
      by_cases hac : a = c
      · subst hac
        rw [if_pos rfl] at h2
        rw [if_pos rfl]
        exact charsLt_trans as bs cs h h2
      · rw [if_neg hac] at h2
        rw [if_neg hac]
        exact h2
    · rw [if_neg hab] at h
      by_cases hbc : b = c
      · subst hbc
        rw [if_neg hab]
        exact h
      · rw [if_neg hbc] at h2
        have hac : a < c := lt_trans (of_decide_eq_true h) (of_decide_eq_true h2)
        rw [if_neg (ne_of_lt hac)]
        exact decide_eq_true hac

theorem charsLt_connex : ∀ as bs : List Char, as ≠ bs →
    charsLt as bs = true ∨ charsLt bs as = true
  | [], [], h => absurd rfl h
  | [], _ :: _, _ => Or.inl (by simp [charsLt])
  | _ :: _, [], _ => Or.inr (by simp [charsLt])
  | a :: as, b :: bs, h => by
    by_cases hab : a = b
    · subst hab
      have hne : as ≠ bs := fun hh => h (by rw [hh])
      rcases charsLt_connex as bs hne with h1 | h1
      · exact Or.inl (by simp [charsLt, h1])
      · exact Or.inr (by simp [charsLt, h1])
    · rcases lt_trichotomy a b with hlt | heq | hgt
      · refine Or.inl ?_
        simp only [charsLt, if_neg hab]
        exact decide_eq_true hlt
      · exact absurd heq hab
      · refine Or.inr ?_
        have hba : ¬ b = a := fun hh => hab hh.symm
        simp only [charsLt, if_neg hba]
        exact decide_eq_true hgt

theorem lcLe_total : ∀ a b : String, lcR a b ∨ lcR b a := by
  intro a b
  unfold lcR
  by_cases h : lowerChars a = lowerChars b
  · simp only [lcLe, if_pos h, if_pos h.symm]
    cases hq : charsLt (caseChars a) (caseChars b)
    · right; simp [hq]
    · left
      have hfalse : charsLt (caseChars b) (caseChars a) = false := by
        cases hr : charsLt (caseChars b) (caseChars a)
        · rfl
        · have := charsLt_trans _ _ _ hq hr
          rw [charsLt_irrefl] at this
          exact Bool.noConfusion this
      simp [hfalse]
  · simp only [lcLe, if_neg h, if_neg (fun hh => h (Eq.symm hh))]
    exact charsLt_connex _ _ h

theorem lcLe_trans : ∀ a b c : String, lcR a b → lcR b c → lcR a c := by
  intro a b c h1 h2
  unfold lcR at h1 h2 ⊢
  by_cases hab : lowerChars a = lowerChars b <;>
    by_cases hbc : lowerChars b = lowerChars c
  · simp only [lcLe, if_pos hab] at h1
    simp only [lcLe, if_pos hbc] at h2
    simp only [lcLe, if_pos (hab.trans hbc)]
    simp only [Bool.not_eq_true'] at h1 h2 ⊢
    cases hq : charsLt (caseChars c) (caseChars a)
    · rfl
    · by_cases hcb : caseChars c = caseChars b
      · rw [hcb] at hq
        rw [h1] at hq
        exact Bool.noConfusion hq
      · rcases charsLt_connex _ _ hcb with hx | hx
        · rw [h2] at hx
          exact Bool.noConfusion hx
        · have := charsLt_trans _ _ _ hx hq
          rw [h1] at this
          exact Bool.noConfusion this
  · simp only [lcLe, if_neg hbc] at h2
    have hac : lowerChars a ≠ lowerChars c := fun hh => hbc (hab.symm.trans hh)
    simp only [lcLe, if_neg hac]
    rw [hab]
    exact h2
  · simp only [lcLe, if_neg hab] at h1
    have hac : lowerChars a ≠ lowerChars c := fun hh => hab (hh.trans hbc.symm)
    simp only [lcLe, if_neg hac]
    rw [← hbc]
    exact h1
  · simp only [lcLe, if_neg hab] at h1
    simp only [lcLe, if_neg hbc] at h2
    have h3 := charsLt_trans _ _ _ h1 h2
    have hac : lowerChars a ≠ lowerChars c := by
      intro hh
      rw [hh] at h1
      have := charsLt_trans _ _ _ h1 h2
      rw [charsLt_irrefl] at this
      exact Bool.noConfusion this
    simp only [lcLe, if_neg hac]
    exact h3

instance : IsTotal String lcR := ⟨lcLe_total⟩

instance : IsTrans String lcR := ⟨lcLe_trans⟩

theorem mkFileNode_names (statF : String → Option Bool)
    (childFiles : String → List String) (sel : Finset String) (dirPath : String) :
    ∀ (l : List String) (b : Bool), (∀ e ∈ l, statF (dirPath ++ "/" ++ e) = some b) →
      (l.filterMap (fun e => mkFileNode statF childFiles sel dirPath e)).map
          (fun n => n.name) = l ∧
        ∀ n ∈ l.filterMap (fun e => mkFileNode statF childFiles sel dirPath e),
          n.isDir = b
  | [], _, _ => ⟨rfl, by simp⟩
  | e :: l, b, h => by
    have he : statF (dirPath ++ "/" ++ e) = some b := h e (List.mem_cons_self e l)
    obtain ⟨ih1, ih2⟩ := mkFileNode_names statF childFiles sel dirPath l b
      (fun x hx => h x (List.mem_cons_of_mem e hx))
    have hmk : mkFileNode statF childFiles sel dirPath e = some
        { label := e ++ (if b then "/" else ""), name := e, isDir := b,
          checked := if b then mainDirChecked (childFiles (dirPath ++ "/" ++ e)) sel
                     else selHas sel (dirPath ++ "/" ++ e) } := by
      simp [mkFileNode, he]
    rw [List.filterMap_cons, hmk]
    refine ⟨by simp [ih1], ?_⟩
    intro n hn
    rcases List.mem_cons.mp hn with rfl | hn
    · rfl
    · exact ih2 n hn

theorem filterMap_sorted_split (statF : String → Option Bool)
    (childFiles : String → List String) (sel : Finset String) (dirPath : String)
    (D F : List String)
    (hD : ∀ e ∈ D, statF (dirPath ++ "/" ++ e) = some true)
    (hF : ∀ e ∈ F, statF (dirPath ++ "/" ++ e) = some false) :
    (List.insertionSort lcR D ++ List.insertionSort lcR F).filterMap
        (fun e => mkFileNode statF childFiles sel dirPath e) =
      dirEntries ((List.insertionSort lcR D ++ List.insertionSort lcR F).filterMap
          (fun e => mkFileNode statF childFiles sel dirPath e)) ++
        fileEntries ((List.insertionSort lcR D ++ List.insertionSort lcR F).filterMap
          (fun e => mkFileNode statF childFiles sel dirPath e)) ∧
    (dirEntries ((List.insertionSort lcR D ++ List.insertionSort lcR F).filterMap
        (fun e => mkFileNode statF childFiles sel dirPath e))).map (fun n => n.name) =
      List.insertionSort lcR D ∧
    (fileEntries ((List.insertionSort lcR D ++ List.insertionSort lcR F).filterMap
        (fun e => mkFileNode statF childFiles sel dirPath e))).map (fun n => n.name) =
      List.insertionSort lcR F := by
  obtain ⟨hna, hia⟩ := mkFileNode_names statF childFiles sel dirPath
    (List.insertionSort lcR D) true
    (fun e he => hD e ((List.mem_insertionSort lcR).mp he))
  obtain ⟨hnb, hib⟩ := mkFileNode_names statF childFiles sel dirPath
    (List.insertionSort lcR F) false
    (fun e he => hF e ((List.mem_insertionSort lcR).mp he))
  rw [List.filterMap_append]
  set A := (List.insertionSort lcR D).filterMap
    (fun e => mkFileNode statF childFiles sel dirPath e) with hAdef
  set B := (List.insertionSort lcR F).filterMap
    (fun e => mkFileNode statF childFiles sel dirPath e) with hBdef
  have h1 : dirEntries (A ++ B) = A := by
    rw [dirEntries, List.filter_append]
    rw [List.filter_eq_self.mpr (fun n hn => hia n hn)]
    rw [List.filter_eq_nil_iff.mpr (fun n hn => by simp [hib n hn])]
    rw [List.append_nil]
  have h2 : fileEntries (A ++ B) = B := by
    rw [fileEntries, List.filter_append]
    rw [List.filter_eq_nil_iff.mpr (fun n hn => by simp [hia n hn])]
    rw [List.filter_eq_self.mpr (fun n hn => by simp [hib n hn])]
    rw [List.nil_append]
  refine ⟨by rw [h1, h2], by rw [h1, hna], by rw [h2, hnb]⟩

theorem part001_names (statF : String → Option Bool) (sel : Finset String)
    (dirPath : String) (hid : Bool) :
    ∀ entries : List String,
      (part001GetFileNodes statF sel dirPath hid entries).map (fun n => n.name) =
        entries.filter (fun e =>
          (statF (dirPath ++ "/" ++ e)).isSome && !(hid && strStartsWith e "."))
  | [] => rfl
  | e :: l => by
    have ih := part001_names statF sel dirPath hid l
    cases hstat : statF (dirPath ++ "/" ++ e) with
    | none =>
      simpa [part001GetFileNodes, List.filterMap_cons, List.filter_cons, hstat] using ih
    | some d =>
      cases hhid : hid with
      | false =>
        simpa [part001GetFileNodes, List.filterMap_cons, List.filter_cons, hstat, hhid]
          using ih
      | true =>
        cases hdot : strStartsWith e "." with
        | false =>
          simpa [part001GetFileNodes, List.filterMap_cons, List.filter_cons, hstat,
            hhid, hdot] using ih
        | true =>
          simpa [part001GetFileNodes, List.filterMap_cons, List.filter_cons, hstat,
            hhid, hdot] using ih

/-- C4 (amended): the named provider's `getFileNodes` lists every directory
node before every file node, with each group's names in the order of the
default-locale `localeCompare` comparator — case-insensitive at the primary
level, but breaking case-insensitive ties by the collation's case rule
(lowercase first), not by raw directory-listing order — and, being a pure
function of the listing, the stat results and the Selection Set, repeated
calls give the identical ordering. The superseded `part_001` provider does
not sort at all: it surfaces the raw `readdirSync` order (stat failures and
hidden entries dropped). -/
theorem c4_listing_order (statF : String → Option Bool)
    (childFiles : String → List String) (sel : Finset String) (dirPath : String)
    (hid : Bool) (entries : List String) :
    getFileNodes statF childFiles sel dirPath hid entries =
      dirEntries (getFileNodes statF childFiles sel dirPath hid entries) ++
        fileEntries (getFileNodes statF childFiles sel dirPath hid entries) ∧
    List.Sorted lcR ((dirEntries (getFileNodes statF childFiles sel dirPath hid
      entries)).map (fun n => n.name)) ∧
    List.Sorted lcR ((fileEntries (getFileNodes statF childFiles sel dirPath hid
      entries)).map (fun n => n.name)) ∧
    (part001GetFileNodes statF sel dirPath hid entries).map (fun n => n.name) =
      entries.filter (fun e =>
        (statF (dirPath ++ "/" ++ e)).isSome && !(hid && strStartsWith e ".")) := by
  have hD : ∀ e ∈ dirNames statF dirPath (hiddenKept hid entries),
      statF (dirPath ++ "/" ++ e) = some true := by
    intro e he
    have := (List.mem_filter.mp he).2
    simpa [beq_iff_eq] using this
  have hF : ∀ e ∈ fileNames statF dirPath (hiddenKept hid entries),
      statF (dirPath ++ "/" ++ e) = some false := by
    intro e he
    have := (List.mem_filter.mp he).2
    simpa [beq_iff_eq] using this
  obtain ⟨h1, h2, h3⟩ := filterMap_sorted_split statF childFiles sel dirPath
    (dirNames statF dirPath (hiddenKept hid entries))
    (fileNames statF dirPath (hiddenKept hid entries)) hD hF
  refine ⟨h1, ?_, ?_, part001_names statF sel dirPath hid entries⟩
  · rw [getFileNodes, h2]
    exact List.sorted_insertionSort lcR _
  · rw [getFileNodes, h3]
    exact List.sorted_insertionSort lcR _

/-- C4 counterexample: two concrete listings falsify the claim as stated.
First, the `part_001` provider applied to the raw listing `[b.txt, adir]`
(`b.txt` a file, `adir` a directory) surfaces the file before the directory,
so directories do not come first. Second, the sorted provider applied to the
raw listing `[A.txt, a.txt]` — two files whose names are case-insensitively
equal — returns `[a.txt, A.txt]`: the tie is broken by the collation's
lowercase-first case rule, not by raw directory-listing order. -/
theorem c4_counterexample_order :
    ((part001GetFileNodes (fun s => if s == "/r/adir" then some true else some false)
        ∅ "/r" true ["b.txt", "adir"]).map (fun n => n.isDir) = [false, true] ∧
      part001GetFileNodes (fun s => if s == "/r/adir" then some true else some false)
          ∅ "/r" true ["b.txt", "adir"] ≠
        dirEntries (part001GetFileNodes
            (fun s => if s == "/r/adir" then some true else some false)
            ∅ "/r" true ["b.txt", "adir"]) ++
          fileEntries (part001GetFileNodes
            (fun s => if s == "/r/adir" then some true else some false)
            ∅ "/r" true ["b.txt", "adir"])) ∧
    ((getFileNodes (fun _ => some false) (fun _ => []) ∅ "/r" true
        ["A.txt", "a.txt"]).map (fun n => n.name) = ["a.txt", "A.txt"] ∧
      (["a.txt", "A.txt"] : List String) ≠ ["A.txt", "a.txt"]) := by
  decide
